import Mathlib

/-!
Shallow embedding of the DAY002 LED sequence firmware (src/config.rs, src/led.rs).

Machine integers: `usize` and `u64` are modelled as `Nat`. In this program the
only arithmetic is `current_index + 1` followed by `% led_count`; the sole
constructor fixes `led_count = LED_COUNT = 4` and every reachable
`current_index` stays below `led_count`, so word-size overflow is
unrepresentable in any run and the unbounded `Nat` model is exact.
Rust's `%` with a zero divisor aborts; `advance` therefore returns an
`Option`, with `none` standing for that abort.
-/

namespace Day002

namespace config

/-- Rust constant `LED_COUNT : usize = 4` from src/config.rs. -/
def LED_COUNT : Nat := 4

/-- Rust constant `SEQUENCE_DELAY_MS : u64 = 250` from src/config.rs. -/
def SEQUENCE_DELAY_MS : Nat := 250

/-- Rust constant `MIN_SEQUENCE_DELAY_MS : u64 = 10` from src/config.rs. -/
def MIN_SEQUENCE_DELAY_MS : Nat := 10

/-- Rust constant `MAX_SEQUENCE_DELAY_MS : u64 = 5000` from src/config.rs. -/
def MAX_SEQUENCE_DELAY_MS : Nat := 5000

end config

/-- Rust enum `LedState` from src/led.rs: `On` or `Off`. -/
inductive LedState where
| On : LedState
| Off : LedState
deriving DecidableEq, Repr

/-- Rust struct `LedSequenceController` from src/led.rs, with fields
`current_index : usize`, `led_count : usize`, `delay_ms : u64`. -/
structure LedSequenceController where
  current_index : Nat
  led_count : Nat
  delay_ms : Nat
deriving DecidableEq, Repr

namespace LedSequenceController

/-- Rust `LedSequenceController::new()`: takes no arguments and builds
`{ current_index: 0, led_count: LED_COUNT, delay_ms: SEQUENCE_DELAY_MS }`. -/
def new : LedSequenceController :=
  { current_index := 0, led_count := config.LED_COUNT,
    delay_ms := config.SEQUENCE_DELAY_MS }

/-- Rust `LedSequenceController::advance(&mut self) -> usize`:
`self.current_index = (self.current_index + 1) % self.led_count; self.current_index`.
The mutation is modelled by returning the updated controller together with the
returned index. A zero `led_count` makes the `%` abort in Rust, modelled as
`none`. -/
def advance (c : LedSequenceController) : Option (LedSequenceController × Nat) :=
  if c.led_count = 0 then
    none
  else
    let i := (c.current_index + 1) % c.led_count
    some ({ c with current_index := i }, i)

/-- Rust `LedSequenceController::led_state(&self, index: usize) -> LedState`:
`On` when `index == self.current_index`, `Off` otherwise. -/
def led_state (c : LedSequenceController) (index : Nat) : LedState :=
  if index = c.current_index then LedState.On else LedState.Off

/-- Calling `advance` a given number of times in sequence, propagating the
abort of any call. -/
def advanceN (c : LedSequenceController) : Nat → Option LedSequenceController
| 0 => some c
| n + 1 =>
    match c.advance with
    | none => none
    | some (c2, _) => c2.advanceN n

end LedSequenceController

/-- Rust free function `led_state_to_level(state: LedState) -> bool` from
src/led.rs: `matches!(state, LedState::On)`. -/
def led_state_to_level (state : LedState) : Bool :=
  match state with
  | LedState.On => true
  | LedState.Off => false

/-- A world of two independently constructed controllers, as in the spec's
independence property. `led.rs` has no static or global state, so calling
`advance` on the first controller of the pair touches only that component. -/
def advancePairFst (p : LedSequenceController × LedSequenceController) :
    Option (LedSequenceController × LedSequenceController) :=
  match p.1.advance with
  | none => none
  | some (c1, _) => some (c1, p.2)

/-- Iterating `advancePairFst`: any finite sequence of `advance` calls applied
to the first controller of the pair. -/
def advancePairFstN (p : LedSequenceController × LedSequenceController) :
    Nat → Option (LedSequenceController × LedSequenceController)
| 0 => some p
| n + 1 =>
    match advancePairFst p with
    | none => none
    | some q => advancePairFstN q n

/-- Helper: from a state whose position satisfies the invariant, `n` calls to
`advance` succeed and land on position `(current_index + n) % led_count`,
leaving the other fields unchanged. -/
theorem advanceN_formula (c : LedSequenceController)
    (h : c.current_index < c.led_count) (n : Nat) :
    c.advanceN n =
      some { c with current_index := (c.current_index + n) % c.led_count } := by
  induction n generalizing c with
  | zero =>
      simp [LedSequenceController.advanceN, Nat.mod_eq_of_lt h]
  | succ n ih =>
      have hpos : 0 < c.led_count := Nat.lt_of_le_of_lt (Nat.zero_le _) h
      have hne : c.led_count ≠ 0 := Nat.pos_iff_ne_zero.mp hpos
      have hstep : ({ c with current_index := (c.current_index + 1) % c.led_count } :
          LedSequenceController).current_index <
          ({ c with current_index := (c.current_index + 1) % c.led_count } :
          LedSequenceController).led_count := Nat.mod_lt _ hpos
      have := ih _ hstep
      simp only [LedSequenceController.advanceN, LedSequenceController.advance,
        hne, if_false, this]
      simp only [Option.some.injEq, LedSequenceController.mk.injEq,
        and_true, true_and]
      rw [Nat.mod_add_mod]
      congr 1
      omega

/-- Helper: every state reached from `new` by finitely many `advance` calls
keeps its position below its count, and keeps the configured count and delay. -/
theorem reachable_fields (n : Nat) (c : LedSequenceController)
    (h : LedSequenceController.new.advanceN n = some c) :
    c.current_index < c.led_count ∧ c.led_count = config.LED_COUNT ∧
      c.delay_ms = config.SEQUENCE_DELAY_MS := by
  have h0 : LedSequenceController.new.current_index <
      LedSequenceController.new.led_count := by decide
  rw [advanceN_formula LedSequenceController.new h0 n] at h
  have hc := Option.some.inj h
  subst hc
  refine ⟨Nat.mod_lt _ (by decide), rfl, rfl⟩

/-- Helper: iterating `advance` on the first controller of a pair leaves the
second controller untouched. -/
theorem advancePairFstN_snd (n : Nat) :
    ∀ p q : LedSequenceController × LedSequenceController,
      advancePairFstN p n = some q → q.2 = p.2 := by
  induction n with
  | zero =>
      intro p q h
      simp [advancePairFstN] at h
      rw [h]
  | succ n ih =>
      intro p q h
      simp only [advancePairFstN, advancePairFst] at h
      cases hadv : p.1.advance with
      | none => rw [hadv] at h; simp at h
      | some r =>
          rw [hadv] at h
          have := ih (r.1, p.2) q h
          simpa using this

/-- Claim C1: for every controller with `count > 0`, `advance` succeeds,
sets the position to `(position + 1) mod count` while leaving the other
fields unchanged, and returns that new position. -/
theorem advance_mod_spec (c : LedSequenceController) (h : 0 < c.led_count) :
    c.advance =
      some ({ c with current_index := (c.current_index + 1) % c.led_count },
        (c.current_index + 1) % c.led_count) := by
  have hne : c.led_count ≠ 0 := Nat.pos_iff_ne_zero.mp h
  simp [LedSequenceController.advance, hne]

/-- Witness for C1: the freshly constructed controller has positive count and
`advance` on it returns position `1` with the other fields unchanged. -/
theorem advance_mod_spec_witness :
    0 < LedSequenceController.new.led_count ∧
      LedSequenceController.new.advance =
        some ({ LedSequenceController.new with current_index :=
          (LedSequenceController.new.current_index + 1) %
            LedSequenceController.new.led_count },
          (LedSequenceController.new.current_index + 1) %
            LedSequenceController.new.led_count) :=
  ⟨by decide, advance_mod_spec LedSequenceController.new (by decide)⟩

/-- Claim C2: every controller constructed by `new`, after any finite sequence
of `advance` calls, satisfies `0 ≤ position < count`. -/
theorem new_advanceN_invariant (n : Nat) (c : LedSequenceController)
    (h : LedSequenceController.new.advanceN n = some c) :
    0 ≤ c.current_index ∧ c.current_index < c.led_count :=
  ⟨Nat.zero_le _, (reachable_fields n c h).1⟩

/-- Witness for C2: after two `advance` calls from `new` the state is
position 2, count 4, delay 250, and the invariant holds there. -/
theorem new_advanceN_invariant_witness :
    0 ≤ ({ current_index := 2, led_count := 4, delay_ms := 250 } :
        LedSequenceController).current_index ∧
      ({ current_index := 2, led_count := 4, delay_ms := 250 } :
        LedSequenceController).current_index <
      ({ current_index := 2, led_count := 4, delay_ms := 250 } :
        LedSequenceController).led_count :=
  new_advanceN_invariant 2 _ (by decide)

/-- Claim C3: at every state reachable from `new`, exactly one index in
`[0, count)` has state `On`, and every other index in `[0, count)` has state
`Off`. -/
theorem reachable_exactly_one_on (n : Nat) (c : LedSequenceController)
    (h : LedSequenceController.new.advanceN n = some c) :
    ∃ i, i < c.led_count ∧ c.led_state i = LedState.On ∧
      ∀ j, j < c.led_count → j ≠ i → c.led_state j = LedState.Off := by
  refine ⟨c.current_index, (reachable_fields n c h).1, ?_, ?_⟩
  · simp [LedSequenceController.led_state]
  · intro j _ hj
    simp [LedSequenceController.led_state, hj]

/-- Witness for C3: in the freshly constructed controller exactly index 0 is
`On` among the indices below the count. -/
theorem reachable_exactly_one_on_witness :
    ∃ i, i < LedSequenceController.new.led_count ∧
      LedSequenceController.new.led_state i = LedState.On ∧
      ∀ j, j < LedSequenceController.new.led_count → j ≠ i →
        LedSequenceController.new.led_state j = LedState.Off :=
  reachable_exactly_one_on 0 LedSequenceController.new rfl

/-- Claim C4: for every controller and every index, also out-of-range ones,
`led_state` is `On` exactly when the index equals the current position and
`Off` exactly otherwise; it is total, with no bounds check and no failure. -/
theorem led_state_iff (c : LedSequenceController) (index : Nat) :
    (c.led_state index = LedState.On ↔ index = c.current_index) ∧
      (c.led_state index = LedState.Off ↔ index ≠ c.current_index) := by
  by_cases h : index = c.current_index <;>
    simp [LedSequenceController.led_state, h]

/-- Claim C5: the constructor takes no count argument and always uses
`LED_COUNT = 4`, which is nonzero, so no construction with `count == 0` can
occur; it initializes the position to 0. The failure the spec names for a
zero count, the division by zero in the modulus, is real: a controller whose
count is 0 aborts at `advance`. -/
theorem new_init_and_zero_count_fails :
    LedSequenceController.new.current_index = 0 ∧
      LedSequenceController.new.led_count = config.LED_COUNT ∧
      0 < config.LED_COUNT ∧
      ∀ c : LedSequenceController, c.led_count = 0 → c.advance = none := by
  refine ⟨rfl, rfl, by decide, ?_⟩
  intro c h
  simp [LedSequenceController.advance, h]

/-- Witness for C5: a controller with count 0 aborts at `advance`. -/
theorem new_init_and_zero_count_fails_witness :
    ({ current_index := 0, led_count := 0, delay_ms := 250 } :
      LedSequenceController).advance = none :=
  new_init_and_zero_count_fails.2.2.2 _ rfl

/-- Claim C6: for every valid controller, in the spec's data-model sense
`position < count` (which forces `count > 0`), `advance` applied
`count * k` times succeeds and restores the state exactly; in particular
`count` calls close the cycle. -/
theorem advance_cycle_closure (c : LedSequenceController) (k : Nat)
    (h : c.current_index < c.led_count) :
    c.advanceN (c.led_count * k) = some c ∧ c.advanceN c.led_count = some c := by
  have hpos : 0 < c.led_count := Nat.lt_of_le_of_lt (Nat.zero_le _) h
  constructor
  · rw [advanceN_formula c h]
    have hmod : (c.current_index + c.led_count * k) % c.led_count =
        c.current_index := by
      rw [Nat.add_mul_mod_self_left]
      exact Nat.mod_eq_of_lt h
    rw [hmod]
  · rw [advanceN_formula c h]
    have hmod : (c.current_index + c.led_count) % c.led_count =
        c.current_index := by
      rw [Nat.add_mod_right]
      exact Nat.mod_eq_of_lt h
    rw [hmod]

/-- Witness for C6: from `new`, `4 * 3 = 12` calls to `advance` restore the
initial state, as do `4` calls. -/
theorem advance_cycle_closure_witness :
    LedSequenceController.new.advanceN (LedSequenceController.new.led_count * 3) =
        some LedSequenceController.new ∧
      LedSequenceController.new.advanceN LedSequenceController.new.led_count =
        some LedSequenceController.new :=
  advance_cycle_closure LedSequenceController.new 3 (by decide)

/-- Claim C7: `led_state_to_level` maps `On` to `true` and `Off` to `false`;
it is a total pure function, so this covers all inputs. -/
theorem led_state_to_level_spec :
    led_state_to_level LedState.On = true ∧
      led_state_to_level LedState.Off = false ∧
      ∀ s : LedState, (led_state_to_level s = true ↔ s = LedState.On) := by
  refine ⟨rfl, rfl, ?_⟩
  intro s
  cases s <;> simp [led_state_to_level]

/-- Claim C8: for two independently constructed controllers with identical
configuration, any finite sequence of `advance` calls on the first leaves the
position, count and delay of the second unchanged. -/
theorem independent_controllers (c1 c2 : LedSequenceController) (n : Nat)
    (_hcount : c1.led_count = c2.led_count) (_hdelay : c1.delay_ms = c2.delay_ms)
    (p : LedSequenceController × LedSequenceController)
    (h : advancePairFstN (c1, c2) n = some p) :
    p.2.current_index = c2.current_index ∧ p.2.led_count = c2.led_count ∧
      p.2.delay_ms = c2.delay_ms := by
  have hsnd := advancePairFstN_snd n (c1, c2) p h
  rw [hsnd]
  exact ⟨rfl, rfl, rfl⟩

/-- Witness for C8: advancing the first of two fresh controllers once leaves
the second controller's fields at their initial values. -/
theorem independent_controllers_witness :
    LedSequenceController.new.current_index =
        LedSequenceController.new.current_index ∧
      LedSequenceController.new.led_count = LedSequenceController.new.led_count ∧
      LedSequenceController.new.delay_ms = LedSequenceController.new.delay_ms :=
  independent_controllers LedSequenceController.new LedSequenceController.new 1
    rfl rfl
    ({ current_index := 1, led_count := 4, delay_ms := 250 },
      LedSequenceController.new)
    (by decide)

/-- Claim C9: `advance` mutates only `current_index`; whenever it succeeds,
the resulting controller keeps the caller's `led_count` and `delay_ms`. -/
theorem advance_frame (c c2 : LedSequenceController) (r : Nat)
    (h : c.advance = some (c2, r)) :
    c2.led_count = c.led_count ∧ c2.delay_ms = c.delay_ms := by
  by_cases h0 : c.led_count = 0
  · simp [LedSequenceController.advance, h0] at h
  · simp only [LedSequenceController.advance, h0, if_false, Option.some.injEq,
      Prod.mk.injEq] at h
    rw [← h.1]
    exact ⟨rfl, rfl⟩

/-- Witness for C9: advancing the fresh controller keeps its count and delay. -/
theorem advance_frame_witness :
    ({ current_index := 1, led_count := 4, delay_ms := 250 } :
        LedSequenceController).led_count = LedSequenceController.new.led_count ∧
      ({ current_index := 1, led_count := 4, delay_ms := 250 } :
        LedSequenceController).delay_ms = LedSequenceController.new.delay_ms :=
  advance_frame LedSequenceController.new
    { current_index := 1, led_count := 4, delay_ms := 250 } 1 (by decide)

/-- Claim C10: a controller built by `new` has `delay_ms = SEQUENCE_DELAY_MS
= 250`, which lies within the configured bounds
`MIN_SEQUENCE_DELAY_MS = 10` and `MAX_SEQUENCE_DELAY_MS = 5000`. -/
theorem new_delay_within_bounds :
    LedSequenceController.new.delay_ms = config.SEQUENCE_DELAY_MS ∧
      LedSequenceController.new.delay_ms = 250 ∧
      config.MIN_SEQUENCE_DELAY_MS = 10 ∧
      config.MAX_SEQUENCE_DELAY_MS = 5000 ∧
      config.MIN_SEQUENCE_DELAY_MS ≤ LedSequenceController.new.delay_ms ∧
      LedSequenceController.new.delay_ms ≤ config.MAX_SEQUENCE_DELAY_MS := by
  decide

end Day002
